import Mathlib

/-
  Verification development for the Taxon identification-key application.

  Shallow embedding of the two core components:
  * the Lucid-archive parser (`LucidKeyParser` in src/services, embedded as
    `processKeyFromZip` and its helpers over an explicit zip/XML model), and
  * the candidate-matching engine (the `useMemo` body in the application root,
    embedded as `computeMatches`).

  Modelling conventions:
  * JS numbers are rationals; `JsNum := Option ℚ` with `none` playing NaN.
    (IEEE-754 rounding of decimal literals is abstracted; all comparisons in
    the claims involve exactly representable values.)
  * JS `Map` objects are association lists with insert-or-overwrite `jsMapSet`
    and first-match `List.lookup`; insertion order is preserved as in JS.
  * JS `Set` results of the match engine are `Finset String`.
  * XML documents are already-parsed element trees (`XmlElem`); DOMParser
    text decoding is abstracted.  A file that is not well-formed XML decodes
    to a `parsererror` document containing no matching elements, mirroring
    DOMParser's behaviour of returning a non-null error document.
  * Strings are compared through char lists where the source lower-cases or
    replaces separators, so that everything evaluates by kernel reduction.
-/

/-! ## JS primitives -/

/-- JS number: `none` is NaN, `some q` a finite value. -/
abbrev JsNum := Option ℚ

/-- JS `<` on numbers: false whenever either side is NaN (or `undefined`). -/
def jsLt : JsNum → JsNum → Bool
  | some a, some b => decide (a < b)
  | _, _ => false

/-- JS `>` on numbers: false whenever either side is NaN (or `undefined`). -/
def jsGt : JsNum → JsNum → Bool
  | some a, some b => decide (b < a)
  | _, _ => false

/-- Numeric value of a digit run, most significant first. -/
def digitsToNat (ds : List Char) : Nat :=
  ds.foldl (fun a c => a * 10 + (c.toNat - '0'.toNat)) 0

/-- `sign * mant * 10 ^ (e - fracLen)` as one normalized rational, assembled
    from integer arithmetic only (so that it evaluates by kernel reduction). -/
def jsFloatVal (sign : Int) (mant : Nat) (fracLen : Nat) (e : Int) : ℚ :=
  match e - (fracLen : Int) with
  | .ofNat k => mkRat (sign * (mant : Int) * ((10 ^ k : ℕ) : Int)) 1
  | .negSucc k => mkRat (sign * (mant : Int)) (10 ^ (k + 1))

/-- Exponent suffix of a JS float literal: `e`/`E`, optional sign, digits.
    A malformed suffix contributes nothing (JS takes the longest valid
    numeric prefix of the input). -/
def expVal (cs : List Char) : Int :=
  match cs with
  | c :: rest =>
    if c == 'e' || c == 'E' then
      match rest with
      | '+' :: ds =>
        let d := ds.takeWhile Char.isDigit
        if d.isEmpty then 0 else (digitsToNat d : Int)
      | '-' :: ds =>
        let d := ds.takeWhile Char.isDigit
        if d.isEmpty then 0 else -(digitsToNat d : Int)
      | ds =>
        let d := ds.takeWhile Char.isDigit
        if d.isEmpty then 0 else (digitsToNat d : Int)
    else 0
  | [] => 0

/-- Model of JS `parseFloat`: skip whitespace, optional sign, digits,
    optional fraction, optional exponent; longest valid prefix; `none` (NaN)
    when no digits are found.  (`Infinity` literals are not modelled; they do
    not occur in this program's inputs.) -/
def jsParseFloat (s : String) : JsNum :=
  let cs1 := s.toList.dropWhile (fun c => c == ' ' || c == '\t' || c == '\n' || c == '\r')
  let sign : Int := match cs1 with
    | '-' :: _ => -1
    | _ => 1
  let cs2 : List Char := match cs1 with
    | '-' :: r => r
    | '+' :: r => r
    | r => r
  let intPart := cs2.takeWhile Char.isDigit
  let rest2 := cs2.dropWhile Char.isDigit
  let fracPart : List Char := match rest2 with
    | '.' :: r => r.takeWhile Char.isDigit
    | _ => []
  let rest3 : List Char := match rest2 with
    | '.' :: r => r.dropWhile Char.isDigit
    | r => r
  if intPart.isEmpty && fracPart.isEmpty then none
  else some (jsFloatVal sign
    (digitsToNat intPart * 10 ^ fracPart.length + digitsToNat fracPart)
    fracPart.length (expVal rest3))

/-- Rendering of a JS number in profile text.  Integer values render exactly;
    the decimal rendering of non-integers is abstracted (no verified claim
    depends on this text). -/
def jsNumToString : JsNum → String
  | none => "NaN"
  | some q => if q.den = 1 then toString q.num else toString q

/-- JS `x || d` for a possibly-missing string: `null`/`undefined` and the
    empty string fall through to the default. -/
def strOr (v : Option String) (d : String) : String :=
  match v with
  | some s => if s == "" then d else s
  | none => d

/-! ## Data model (mirrors `types.ts`) -/

/-- `Entity` record of the flat catalog. -/
structure Entity where
  id : String
  name : String
deriving DecidableEq

/-- `Feature` record.  `type` holds the runtime value of the TS
    `FeatureType` cast: `some "state"` for state items, otherwise the raw
    `score_type` attribute (`none` when the attribute is absent — the TS
    cast is unchecked).  The source field `unit_prefix` is embedded under
    the name `unit_pref`. -/
structure Feature where
  id : String
  name : String
  type : Option String
  isState : Bool
  parentName : Option String
  base_unit : Option String
  unit_pref : Option String
deriving DecidableEq

/-- `EntityNode` of the hierarchical entity tree.  The rendering-only
    `isDimmed` flag is omitted (it is set only by the presentation-layer
    `filterEntityTree`, which no claim concerns). -/
inductive EntityNode where
  | mk (id : String) (name : String) (children : List EntityNode) (isGroup : Bool)

def EntityNode.id : EntityNode → String
  | .mk i _ _ _ => i

def EntityNode.name : EntityNode → String
  | .mk _ n _ _ => n

def EntityNode.children : EntityNode → List EntityNode
  | .mk _ _ cs _ => cs

def EntityNode.isGroup : EntityNode → Bool
  | .mk _ _ _ g => g

/-- `FeatureNode` of the diagnostic-feature tree. -/
inductive FeatureNode where
  | mk (id : String) (name : String) (type : Option String) (isState : Bool)
      (children : List FeatureNode)

def FeatureNode.id : FeatureNode → String
  | .mk i _ _ _ _ => i

def FeatureNode.name : FeatureNode → String
  | .mk _ n _ _ _ => n

def FeatureNode.type : FeatureNode → Option String
  | .mk _ _ t _ _ => t

def FeatureNode.isState : FeatureNode → Bool
  | .mk _ _ _ s _ => s

def FeatureNode.children : FeatureNode → List FeatureNode
  | .mk _ _ _ _ cs => cs

/-- `Score = StateScore | NumericScore`.  A state score's `value` is the raw
    `value` attribute (the TS `ScoreType` cast is unchecked at runtime). -/
inductive Score where
  | state (value : String)
  | numeric (min max : JsNum)
deriving DecidableEq

/-- `(score as StateScore).value`: `none` models JS `undefined` when the
    score is actually numeric. -/
def scoreStateValue : Score → Option String
  | .state v => some v
  | .numeric _ _ => none

/-- `(score as NumericScore).min`: comparing against `undefined` behaves
    like NaN, hence `none` for a state score. -/
def scoreMin : Score → JsNum
  | .state _ => none
  | .numeric mn _ => mn

/-- `(score as NumericScore).max`. -/
def scoreMax : Score → JsNum
  | .state _ => none
  | .numeric _ mx => mx

/-- `Media` attachment. -/
structure Media where
  url : String
  caption : Option String
  copyright : Option String
  comments : Option String
deriving DecidableEq

/-- `Characteristic` line of an entity profile. -/
structure Characteristic where
  text : String
  parent : String
  type : String
  score : Option String
deriving DecidableEq

/-- `EntityProfile`. -/
structure EntityProfile where
  name : String
  characteristics : List Characteristic
deriving DecidableEq

/-- One entry of `featureListForAI`. -/
structure AIFeatureEntry where
  id : String
  type : Option String
  description : String
deriving DecidableEq

/-- `KeyData`: the assembled model returned by the parser. -/
structure KeyData where
  keyTitle : String
  keyAuthors : String
  keyDescription : String
  allEntities : List (String × Entity)
  entityTree : List EntityNode
  allFeatures : List (String × Feature)
  entityMedia : List (String × List Media)
  featureMedia : List (String × List Media)
  featureTree : List FeatureNode
  entityScores : List (String × List (String × Score))
  entityProfiles : List (String × EntityProfile)
  totalFeaturesCount : Nat
  featureListForAI : List AIFeatureEntry
  parsingErrors : List String

/-- `ChosenFeature`: the user's choice for one feature.  State selections
    store the string rendering of JS `true`; numeric inputs store the raw
    text-field string.  Only numeric constraints ever read the value. -/
structure ChosenFeature where
  value : Option String
deriving DecidableEq

/-! ## JS `Map` helpers -/

/-- `Map.set`: overwrite in place when the key exists, else append. -/
def jsMapSet {α : Type} (m : List (String × α)) (k : String) (v : α) :
    List (String × α) :=
  if m.any (fun p => p.1 == k) then
    m.map (fun p => if p.1 == k then (k, v) else p)
  else m ++ [(k, v)]

/-- `map.get(k)?.foo(...)`: mutate the value in place when the key exists,
    else do nothing. -/
def jsMapAdjust {α : Type} (m : List (String × α)) (k : String) (f : α → α) :
    List (String × α) :=
  m.map (fun p => if p.1 == k then (p.1, f p.2) else p)

/-! ## Match engine (`computeMatches` memo in the application root) -/

/-- `new Set(keyData.allEntities.keys())`. -/
def entityIdSet (kd : KeyData) : Finset String :=
  (kd.allEntities.map Prod.fst).toFinset

/-- `keyData.entityScores.get(entityId)?.get(featureId)`. -/
def lookupScore (kd : KeyData) (entityId featureId : String) : Option Score :=
  (kd.entityScores.lookup entityId).bind (fun m => m.lookup featureId)

/-- `parseFloat(String(choice.value))`: `String(undefined)` is
    `"undefined"`, which parses to NaN. -/
def choiceNum (choice : ChosenFeature) : JsNum :=
  jsParseFloat (match choice.value with | some s => s | none => "undefined")

/-- The `isMismatch` expression of the direct-filtering loop:
    no score, or a state feature scored `"0"`, or a numeric feature whose
    chosen value is NaN or outside `[min, max]`. -/
def isMismatch (f : Feature) (choice : ChosenFeature) (score : Option Score) :
    Bool :=
  match score with
  | none => true
  | some sc =>
    (f.type == some "state" && scoreStateValue sc == some "0")
    || (f.type == some "numeric" &&
        ((choiceNum choice).isNone
          || jsLt (choiceNum choice) (scoreMin sc)
          || jsGt (choiceNum choice) (scoreMax sc)))

/-- Inner loop over `chosenFeatures` for one entity: a chosen feature id
    missing from `allFeatures` is skipped (`if (!feature) continue`);
    the first mismatch discards the entity (`break` — existential). -/
def entityMismatch (kd : KeyData) (chosen : List (String × ChosenFeature))
    (e : String) : Bool :=
  chosen.any (fun p =>
    match kd.allFeatures.lookup p.1 with
    | none => false
    | some f => isMismatch f p.2 (lookupScore kd e p.1))

/-- Mutable state of the indirect-match computation. -/
structure IndirectState where
  indirect : Finset String
  remaining : Finset String
  changed : Bool

/-- Body of the `nodes.forEach` callback in `buildIndirectHierarchy`. -/
def indirectStep (st : IndirectState) (n : EntityNode) : IndirectState :=
  if n.isGroup && !(decide (n.id ∈ st.remaining))
      && n.children.any (fun c => decide (c.id ∈ st.remaining)) then
    { indirect := insert n.id st.indirect,
      remaining := insert n.id st.remaining,
      changed := true }
  else st

/-- One call of `buildIndirectHierarchy(nodes)`: a single pass over the
    given node list (the source iterates only the list it is handed — it
    does not recurse into `node.children`). -/
def indirectPass (nodes : List EntityNode) (st : IndirectState) :
    IndirectState :=
  nodes.foldl indirectStep { st with changed := false }

/-- `while (buildIndirectHierarchy(keyData.entityTree));` with explicit
    fuel.  Every pass that reports a change inserts at least one id of a
    node of `nodes` into `remaining` and ids are never removed, so
    `nodes.length + 1` passes always reach the pass that reports no change;
    `computeMatches` supplies exactly that fuel, making this equal to the
    source's unbounded loop. -/
def indirectLoop (nodes : List EntityNode) : Nat → IndirectState → IndirectState
  | 0, st => st
  | fuel + 1, st =>
    let st' := indirectPass nodes st
    if st'.changed then indirectLoop nodes fuel st' else st'

/-- Result record of the match computation. -/
structure MatchResult where
  direct : Finset String
  indirect : Finset String
  discarded : Finset String
  directlyDiscarded : Finset String
deriving DecidableEq

/-- The set built in step 1 of the memo: entities with at least one direct
    constraint mismatch. -/
def directlyDiscardedSet (kd : KeyData)
    (chosen : List (String × ChosenFeature)) : Finset String :=
  (entityIdSet kd).filter (fun e => entityMismatch kd chosen e)

/-- `computeMatches`: the `useMemo` body computing
    `{directMatches, indirectMatches, discardedEntityIds, directlyDiscarded}`
    from the model and the chosen constraints. -/
def computeMatches (kd : KeyData) (chosen : List (String × ChosenFeature)) :
    MatchResult :=
  let allIds := entityIdSet kd
  if chosen.isEmpty then
    { direct := allIds, indirect := ∅, discarded := ∅, directlyDiscarded := ∅ }
  else
    let dd := directlyDiscardedSet kd chosen
    let direct := allIds.filter (fun id => id ∉ dd)
    let final := indirectLoop kd.entityTree (kd.entityTree.length + 1)
      { indirect := ∅, remaining := direct, changed := false }
    let discarded := allIds.filter (fun id => id ∉ final.remaining)
    { direct := direct, indirect := final.indirect, discarded := discarded,
      directlyDiscarded := dd }

/-! ## XML model (documents already decoded from text) -/

/-- An XML element: tag, attributes, element children (text nodes are not
    material to the parser and are omitted). -/
inductive XmlElem where
  | mk (tag : String) (attrs : List (String × String)) (children : List XmlElem)

def XmlElem.tag : XmlElem → String
  | .mk t _ _ => t

def XmlElem.attrs : XmlElem → List (String × String)
  | .mk _ a _ => a

def XmlElem.children : XmlElem → List XmlElem
  | .mk _ _ cs => cs

/-- `el.getAttribute(k)`: `none` models JS `null`. -/
def getAttribute (x : XmlElem) (k : String) : Option String :=
  x.attrs.lookup k

/-- A truthy attribute: `const v = el.getAttribute(k); if (v) ...` — both
    `null` and the empty string are falsy. -/
def attrNonEmpty (x : XmlElem) (k : String) : Option String :=
  match getAttribute x k with
  | some s => if s == "" then none else some s
  | none => none

/-- `el.getAttribute(k) || d`. -/
def attrOr (x : XmlElem) (k : String) (d : String) : String :=
  strOr (getAttribute x k) d

mutual
/-- All elements of a subtree including the root, in document (pre-)order:
    the element list that `querySelectorAll` filters. -/
def allElems : XmlElem → List XmlElem
  | .mk t a cs => .mk t a cs :: allElemsL cs
/-- All elements of a forest in document order. -/
def allElemsL : List XmlElem → List XmlElem
  | [] => []
  | x :: xs => allElems x ++ allElemsL xs
end

/-- `el.querySelectorAll(tag)`: descendants only, document order. -/
def descElems (x : XmlElem) : List XmlElem :=
  allElemsL x.children

/-- An element together with its ancestor chain (innermost first) and its
    next element sibling — the context needed to model `closest`,
    `parentNode` and `nextElementSibling`. -/
structure ElemCtx where
  el : XmlElem
  anc : List XmlElem
  next : Option XmlElem

mutual
/-- Document-order traversal carrying the ancestor chain and sibling. -/
def ctxElems : XmlElem → List XmlElem → Option XmlElem → List ElemCtx
  | .mk t a cs, anc, nxt =>
    ⟨.mk t a cs, anc, nxt⟩ :: ctxElemsL cs (.mk t a cs :: anc)
def ctxElemsL : List XmlElem → List XmlElem → List ElemCtx
  | [], _ => []
  | x :: xs, anc => ctxElems x anc xs.head? ++ ctxElemsL xs anc
end

/-- Contexts of every element of the document, in document order. -/
def docCtxElems (doc : XmlElem) : List ElemCtx :=
  ctxElems doc [] none

/-- `el.closest(tag)` along an explicit self-then-ancestors chain; also
    returns the chain strictly above the hit, so that `hit.parentNode` and
    further `closest` calls can continue from there. -/
def closestFrom (l : List XmlElem) (t : String) : Option (XmlElem × List XmlElem) :=
  match l with
  | [] => none
  | x :: rest => if x.tag == t then some (x, rest) else closestFrom rest t

/-- The `parentName` computation of the feature-registration loop:
    `el.closest('feature_node')?.parentNode?.closest('feature_node')`
    `?.querySelector(':scope > feature_item')?.getAttribute('item_name')`.
    (When the inner `feature_node` is the document root its parent is the
    Document object; the chain then yields no name, abstracting the
    `closest`-on-Document corner that cannot arise in real keys.) -/
def featureParentName (c : ElemCtx) : Option String :=
  match closestFrom (c.el :: c.anc) "feature_node" with
  | none => none
  | some (_, above) =>
    match closestFrom above "feature_node" with
    | none => none
    | some (pn, _) =>
      (pn.children.find? (fun ch => ch.tag == "feature_item")).bind
        (fun fi => getAttribute fi "item_name")

/-! ## Zip model -/

mutual
/-- One entry of a zip archive (`zip.files` preserves insertion order). -/
inductive ZipEntry where
  | mk (name : String) (isDir : Bool) (data : EntryData)
/-- Payload of an entry: an XML text file (already decoded), a nested zip,
    or opaque binary data. -/
inductive EntryData where
  | xml (doc : XmlElem)
  | zipped (entries : List ZipEntry)
  | binary
end

def ZipEntry.name : ZipEntry → String
  | .mk n _ _ => n

def ZipEntry.isDir : ZipEntry → Bool
  | .mk _ d _ => d

def ZipEntry.data : ZipEntry → EntryData
  | .mk _ _ d => d

/-- `path.toLowerCase().replace(/\\/g, '/')` as a char list. -/
def normPath (s : String) : List Char :=
  s.toList.map (fun c => let l := c.toLower; if l == '\\' then '/' else l)

/-- `findFileInZip`: first entry whose normalized name equals the
    normalized path (case-insensitive, separator-agnostic). -/
def findFileInZip (entries : List ZipEntry) (path : String) : Option ZipEntry :=
  entries.find? (fun e => normPath e.name == normPath path)

/-- `readFromInnerZip`: locate a nested archive, decode it, and read a named
    file from inside it.  Every failure (inner zip absent, not actually a
    zip, target file absent) yields `none` — the source logs a warning and
    returns `null`.  A target file that is not well-formed XML decodes to a
    `parsererror` document (DOMParser never returns `null`). -/
def readFromInnerZip (outer : List ZipEntry) (innerZipPath targetFileName : String) :
    Option XmlElem :=
  match findFileInZip outer innerZipPath with
  | none => none
  | some e =>
    match e.data with
    | .zipped inner =>
      match findFileInZip inner targetFileName with
      | none => none
      | some t =>
        match t.data with
        | .xml doc => some doc
        | _ => some (XmlElem.mk "parsererror" [] [])
    | _ => none

/-! ## Model building (`LucidKeyParser`) -/

/-- `zipFile.name.replace(/\.(zip|lk4|lk5)$/i, '')`. -/
def stripKeyExt (fileName : String) : String :=
  let low := fileName.toList.map Char.toLower
  if ".zip".toList.isSuffixOf low || ".lk4".toList.isSuffixOf low
      || ".lk5".toList.isSuffixOf low then
    String.mk (fileName.toList.take (fileName.toList.length - 4))
  else fileName

/-- First index at which `pat` occurs as a substring, JS `indexOf` style. -/
def idxOfSub (pat : List Char) : List Char → Nat → Option Nat
  | [], _ => none
  | l@(_ :: rest), i =>
    if pat.isPrefixOf l then some i else idxOfSub pat rest (i + 1)

/-- `dataDirPath.substring(0, dataDirPath.toLowerCase().indexOf('data/'))`;
    when `indexOf` misses (backslash-separated names), `substring(0, -1)`
    is the empty string. -/
def computeRootPath (dataDirPath : String) : String :=
  match idxOfSub "data/".toList (dataDirPath.toList.map Char.toLower) 0 with
  | some i => String.mk (dataDirPath.toList.take i)
  | none => ""

/-- `keyDoc.querySelector('property[key="k"]')?.getAttribute('value') || ''`. -/
def getProp (doc : XmlElem) (key : String) : String :=
  match (allElems doc).find?
      (fun e => e.tag == "property" && getAttribute e "key" == some key) with
  | none => ""
  | some el => strOr (getAttribute el "value") ""

/-- The `entity_item` registration: id must be truthy; creates the entity,
    an empty score map and an empty profile. -/
def registerEntity (kd : KeyData) (el : XmlElem) : KeyData :=
  match attrNonEmpty el "item_id" with
  | none => kd
  | some id =>
    let name := attrOr el "item_name" "Unknown Entity"
    { kd with
      allEntities := jsMapSet kd.allEntities id ⟨id, name⟩,
      entityScores := jsMapSet kd.entityScores id [],
      entityProfiles := jsMapSet kd.entityProfiles id ⟨name, []⟩ }

/-- The `feature_item`/`state_item` registration loop body (the element is
    already known to carry one of those two tags): drops `text` features,
    records the enclosing feature-group name, and adds non-grouping items
    to the AI feature list (a non-state item directly followed by a `nodes`
    sibling is a pure grouping node and is excluded from that list). -/
def registerFeature (kd : KeyData) (c : ElemCtx) : KeyData :=
  let el := c.el
  let isState := el.tag == "state_item"
  let type := if isState then some "state" else getAttribute el "score_type"
  if type == some "text" then kd
  else
    match attrNonEmpty el "item_id" with
    | none => kd
    | some id =>
      let parentName := featureParentName c
      let name := attrOr el "item_name" "Unknown Feature"
      let f : Feature :=
        { id := id, name := name, type := type, isState := isState,
          parentName := parentName,
          base_unit := getAttribute el "base_unit",
          unit_pref := getAttribute el "unit_prefix" }
      let kd := { kd with allFeatures := jsMapSet kd.allFeatures id f }
      if !isState && (match c.next with
          | some nx => nx.tag == "nodes"
          | none => false) then kd
      else
        { kd with featureListForAI := kd.featureListForAI ++
            [⟨id, type,
              match parentName with
              | some p => if p == "" then name else p ++ ": " ++ name
              | none => name⟩] }

mutual
/-- `buildFeatureNode`: identity from the first direct `feature_item` /
    `state_item` child; missing or uncataloged ids drop the node (and with
    it the whole subtree); children from the first direct `nodes` child. -/
def buildFeatureNode (af : List (String × Feature)) : XmlElem → Option FeatureNode
  | .mk _ _ cs =>
    match cs.find? (fun ch => ch.tag == "feature_item" || ch.tag == "state_item") with
    | none => none
    | some item =>
      match attrNonEmpty item "item_id" with
      | none => none
      | some id =>
        match af.lookup id with
        | none => none
        | some f => some (.mk id f.name f.type f.isState (buildFeatureChildren af cs))
/-- Children of a feature node: contents of the first direct `nodes` child. -/
def buildFeatureChildren (af : List (String × Feature)) : List XmlElem → List FeatureNode
  | [] => []
  | .mk t _ cs :: rest =>
    if t == "nodes" then buildFeatureForest af cs else buildFeatureChildren af rest
/-- `.map(buildFeatureNode).filter(node => node !== null)`. -/
def buildFeatureForest (af : List (String × Feature)) : List XmlElem → List FeatureNode
  | [] => []
  | x :: xs =>
    match buildFeatureNode af x with
    | some n => n :: buildFeatureForest af xs
    | none => buildFeatureForest af xs
end

mutual
/-- `buildEntityNode`: identity from the first direct `entity_item` child;
    missing or uncataloged ids drop the node and its whole subtree;
    `isGroup` iff the built child list is non-empty. -/
def buildEntityNode (ae : List (String × Entity)) : XmlElem → Option EntityNode
  | .mk _ _ cs =>
    match cs.find? (fun ch => ch.tag == "entity_item") with
    | none => none
    | some item =>
      match attrNonEmpty item "item_id" with
      | none => none
      | some id =>
        match ae.lookup id with
        | none => none
        | some ent =>
          let children := buildEntityChildren ae cs
          some (.mk id ent.name children (children.length != 0))
/-- Children of an entity node: contents of the first direct `nodes` child. -/
def buildEntityChildren (ae : List (String × Entity)) : List XmlElem → List EntityNode
  | [] => []
  | .mk t _ cs :: rest =>
    if t == "nodes" then buildEntityForest ae cs else buildEntityChildren ae rest
/-- `.map(buildEntityNode).filter(node => node !== null)`. -/
def buildEntityForest (ae : List (String × Entity)) : List XmlElem → List EntityNode
  | [] => []
  | x :: xs =>
    match buildEntityNode ae x with
    | some n => n :: buildEntityForest ae xs
    | none => buildEntityForest ae xs
end

mutual
/-- `countAvailableFeatures` (the spec's `countScorableFeatures`): the
    loop accumulating every node's contribution. -/
def countAvailableFeatures : List FeatureNode → Nat
  | [] => 0
  | n :: rest => countAvailableNode n + countAvailableFeatures rest
/-- The loop body's contribution of one node: numeric nodes count 1; a
    node whose first child is a state counts 1 without recursion; a node
    with non-state children is a grouping node — recurse without counting
    it; a childless non-numeric node counts 0. -/
def countAvailableNode : FeatureNode → Nat
  | .mk _ _ t _ [] => if t == some "numeric" then 1 else 0
  | .mk _ _ t _ (h :: tl) =>
    if t == some "numeric" then 1
    else if h.isState then 1
    else countAvailableFeatures (h :: tl)
end

/-- `getUnitSymbol`: compose prefix and base-unit symbols; unknown or
    `none` entries, and non-numeric features, render as empty. -/
def getUnitSymbol (feature : Option Feature) : String :=
  match feature with
  | none => ""
  | some f =>
    if f.type != some "numeric" then ""
    else
      let prefMap : List (String × String) :=
        [("kilo", "k"), ("hecto", "h"), ("deca", "da"), ("deci", "d"),
         ("centi", "c"), ("milli", "m"), ("micro", "µ"), ("none", "")]
      let baseMap : List (String × String) :=
        [("metre", "m"), ("square metre", "m²"), ("cubic metre", "m³"),
         ("litre", "l"), ("degrees celcius", "°C"), ("degrees planar", "°"),
         ("none", "")]
      let pref := strOr (prefMap.lookup (strOr f.unit_pref "none")) ""
      let base := strOr (baseMap.lookup (strOr f.base_unit "none")) ""
      pref ++ base

/-- One `scored_item` of a state `scoring_item`: records the score under
    the state id (only for already-cataloged entities — `?.set`) and
    appends a profile characteristic grouped under the state's feature
    group (default bucket `"Others"`). -/
def applyStateScored (stateId : String) (stateInfo : Feature) (kd : KeyData)
    (sci : XmlElem) : KeyData :=
  match attrNonEmpty sci "item_id", attrNonEmpty sci "value" with
  | some entityId, some scoreValue =>
    let kd := { kd with entityScores :=
      (jsMapAdjust kd.entityScores entityId
        (fun m => jsMapSet m stateId (Score.state scoreValue))) }
    { kd with entityProfiles :=
      (jsMapAdjust kd.entityProfiles entityId
        (fun p => { p with characteristics := (p.characteristics ++
          [⟨stateInfo.name, strOr stateInfo.parentName "Others", "state",
            some scoreValue⟩]) })) }
  | _, _ => kd

/-- One `scoring_item` of `normal_score_data`. -/
def applyStateScoring (kd : KeyData) (si : XmlElem) : KeyData :=
  match attrNonEmpty si "item_id" with
  | none => kd
  | some stateId =>
    match kd.allFeatures.lookup stateId with
    | none => kd
    | some stateInfo =>
      ((descElems si).filter (fun e => e.tag == "scored_item")).foldl
        (applyStateScored stateId stateInfo) kd

/-- One `scored_item` of a numeric `scoring_item`: parses `omin`/`omax`
    (defaulting `'0'`), records the range and appends a formatted
    profile characteristic. -/
def applyNumericScored (featureId : String) (featureInfo : Feature)
    (kd : KeyData) (sci : XmlElem) : KeyData :=
  match (descElems sci).find? (fun e => e.tag == "scored_data"),
      attrNonEmpty sci "item_id" with
  | some data, some entityId =>
    let mn := jsParseFloat (attrOr data "omin" "0")
    let mx := jsParseFloat (attrOr data "omax" "0")
    let kd := { kd with entityScores :=
      (jsMapAdjust kd.entityScores entityId
        (fun m => jsMapSet m featureId (Score.numeric mn mx))) }
    { kd with entityProfiles :=
      (jsMapAdjust kd.entityProfiles entityId
        (fun p => { p with characteristics := (p.characteristics ++
          [⟨jsNumToString mn ++ " - " ++ jsNumToString mx ++ " "
              ++ getUnitSymbol (some featureInfo),
            featureInfo.name, "numeric", none⟩]) })) }
  | _, _ => kd

/-- One `scoring_item` of `numeric_score_data`. -/
def applyNumericScoring (kd : KeyData) (si : XmlElem) : KeyData :=
  match attrNonEmpty si "item_id" with
  | none => kd
  | some featureId =>
    match kd.allFeatures.lookup featureId with
    | none => kd
    | some featureInfo =>
      ((descElems si).filter (fun e => e.tag == "scored_item")).foldl
        (applyNumericScored featureId featureInfo) kd

/-- `querySelectorAll('normal_score_data > scoring_item')` — elements whose
    direct parent carries the given tag. -/
def childSel (doc : XmlElem) (parentTag childTag : String) : List XmlElem :=
  ((docCtxElems doc).filter (fun c =>
    c.el.tag == childTag &&
    (match c.anc.head? with
     | some p => p.tag == parentTag
     | none => false))).map (fun c => c.el)

/-- `processScores`: read `normal.sco` out of the nested `.sco` archive.
    When it cannot be read the source only logs a console warning and
    returns — non-fatal, every entity keeps its empty score map and
    `parsingErrors` is untouched. -/
def processScores (entries : List ZipEntry) (dataDirPath keyName : String)
    (kd : KeyData) : KeyData :=
  match readFromInnerZip entries (dataDirPath ++ keyName ++ ".sco") "normal.sco" with
  | none => kd
  | some doc =>
    let kd1 := (childSel doc "normal_score_data" "scoring_item").foldl
      applyStateScoring kd
    (childSel doc "numeric_score_data" "scoring_item").foldl
      applyNumericScoring kd1

/-- `(rootPath + filePath).replace(/\\/g, '/')`. -/
def mediaFullPath (rootPath filePath : String) : String :=
  String.mk ((rootPath ++ filePath).toList.map
    (fun c => if c == '\\' then '/' else c))

/-- `getBlobUrlFromZip`: a found file materializes to a blob URL (modelled
    as a deterministic handle; `URL.createObjectURL` failures are not
    modelled); a missing file appends a parsing error and yields `null`. -/
def getBlobUrlFromZip (entries : List ZipEntry) (rootPath filePath : String)
    (kd : KeyData) : Option String × KeyData :=
  let fullPath := mediaFullPath rootPath filePath
  match findFileInZip entries fullPath with
  | some _ => (some ("blob:" ++ fullPath), kd)
  | none =>
    (none, { kd with parsingErrors := kd.parsingErrors ++
      ["Media file not found in archive: " ++ fullPath] })

/-- `if (!map.has(id)) map.set(id, []); map.get(id)!.push(m)`. -/
def mediaPush (m : List (String × List Media)) (k : String) (v : Media) :
    List (String × List Media) :=
  if m.any (fun p => p.1 == k) then jsMapAdjust m k (fun l => l ++ [v])
  else m ++ [(k, [v])]

/-- One `media_item`: needs a `media_details` descendant, a truthy
    `media_path` attribute and a truthy `item_id`; resolves
    `Media/<media_path>` under the root prefix and attaches the media to
    the entity or else the feature with that id. -/
def processMediaItem (entries : List ZipEntry) (rootPath : String)
    (kd : KeyData) (mi : XmlElem) : KeyData :=
  match (descElems mi).find? (fun e => e.tag == "media_details"),
      attrNonEmpty mi "media_path" with
  | some details, some pathFromXml =>
    match attrNonEmpty details "item_id" with
    | none => kd
    | some itemId =>
      let fullPathInZip := "Media/" ++ pathFromXml
      match getBlobUrlFromZip entries rootPath fullPathInZip kd with
      | (none, kd') => kd'
      | (some url, kd') =>
        let md : Media :=
          ⟨url, attrNonEmpty details "caption",
            attrNonEmpty details "copyright", attrNonEmpty details "comments"⟩
        if kd'.allEntities.any (fun q => q.1 == itemId) then
          { kd' with entityMedia := mediaPush kd'.entityMedia itemId md }
        else if kd'.allFeatures.any (fun q => q.1 == itemId) then
          { kd' with featureMedia := mediaPush kd'.featureMedia itemId md }
        else kd'
  | _, _ => kd

/-- The `media_item` elements of the key document, document order. -/
def mediaItemsOf (doc : XmlElem) : List XmlElem :=
  (allElems doc).filter (fun e => e.tag == "media_item")

/-- `processMedia`. -/
def processMedia (entries : List ZipEntry) (rootPath : String)
    (doc : XmlElem) (kd : KeyData) : KeyData :=
  (mediaItemsOf doc).foldl (processMediaItem entries rootPath) kd

/-- The uploaded file: either a decodable zip or something JSZip rejects. -/
inductive UploadedFile where
  | zipBlob (entries : List ZipEntry)
  | notZip

/-- Fatal load failures: `ArchiveError` (outer container unreadable) and
    `StructureError` (required directory or file absent).  The source
    throws plain `Error`s with these messages; an `Except.error` result
    leaves no partial model behind, as the spec's propagation policy
    requires. -/
inductive LoadError where
  | archiveError (msg : String)
  | structureError (msg : String)
deriving DecidableEq

/-- The empty `KeyData` skeleton the parser starts from. -/
def emptyKeyData : KeyData :=
  { keyTitle := "", keyAuthors := "", keyDescription := "",
    allEntities := [], entityTree := [], allFeatures := [],
    entityMedia := [], featureMedia := [], featureTree := [],
    entityScores := [], entityProfiles := [], totalFeaturesCount := 0,
    featureListForAI := [], parsingErrors := [] }

/-- `processKeyFromZip` (the spec's `loadArchive`): decode the outer
    archive, locate the `data/` directory, read `key.data` from the nested
    `.data` archive, build catalogs, trees and counts, then apply scores
    and media.  The two `StructureError`s and the `ArchiveError` are the
    only fatal exits. -/
def processKeyFromZip (fileName : String) (file : UploadedFile) :
    Except LoadError KeyData :=
  match file with
  | .notZip => .error (.archiveError
      "The selected file could not be read. It might be corrupted or not a valid Lucid key (zip, lk4, lk5) file.")
  | .zipBlob entries =>
    let keyName := stripKeyExt fileName
    match entries.find? (fun e =>
        e.isDir && "data/".toList.isSuffixOf (normPath e.name)) with
    | none => .error (.structureError
        "Invalid Lucid key zip: \"Data\" directory not found.")
    | some dirEntry =>
      let dataDirPath := dirEntry.name
      let rootPath := computeRootPath dataDirPath
      let innerDataZipPath := dataDirPath ++ keyName ++ ".data"
      match readFromInnerZip entries innerDataZipPath "key.data" with
      | none => .error (.structureError
          ("Could not find or read \"key.data\" from the nested archive \""
            ++ innerDataZipPath ++ "\"."))
      | some keyDoc =>
        let kd0 := { emptyKeyData with
          keyTitle := strOr (some (getProp keyDoc "key_title")) keyName,
          keyAuthors := getProp keyDoc "key_authors",
          keyDescription := getProp keyDoc "key_description" }
        let kd1 := ((allElems keyDoc).filter
          (fun e => e.tag == "entity_item")).foldl registerEntity kd0
        let kd2 := ((docCtxElems keyDoc).filter (fun c =>
          c.el.tag == "feature_item" || c.el.tag == "state_item")).foldl
          registerFeature kd1
        let featureTree := match (allElems keyDoc).find?
            (fun e => e.tag == "feature_tree") with
          | some root => buildFeatureForest kd2.allFeatures root.children
          | none => []
        let entityTree := match (allElems keyDoc).find?
            (fun e => e.tag == "entity_tree") with
          | some root => buildEntityForest kd2.allEntities root.children
          | none => []
        let kd3 := { kd2 with featureTree := featureTree, entityTree := entityTree }
        let kd4 := { kd3 with totalFeaturesCount := countAvailableFeatures kd3.featureTree }
        let kd5 := processScores entries dataDirPath keyName kd4
        let kd6 := processMedia entries rootPath keyDoc kd5
        .ok kd6

/-! ## Auxiliary definitions for the verified claims -/

mutual
/-- All ids occurring in an entity-tree node, the node's own id first. -/
def entityNodeIds : EntityNode → List String
  | .mk i _ cs _ => i :: entityForestIds cs
/-- All ids occurring in an entity forest. -/
def entityForestIds : List EntityNode → List String
  | [] => []
  | n :: ns => entityNodeIds n ++ entityForestIds ns
end

mutual
/-- All ids occurring in a feature-tree node. -/
def featureNodeIds : FeatureNode → List String
  | .mk i _ _ _ cs => i :: featureForestIds cs
/-- All ids occurring in a feature forest. -/
def featureForestIds : List FeatureNode → List String
  | [] => []
  | n :: ns => featureNodeIds n ++ featureForestIds ns
end

mutual
/-- Size of an XML element (for strong induction). -/
def xmlSize : XmlElem → Nat
  | .mk _ _ cs => 1 + xmlSizeL cs
/-- Size of an XML forest. -/
def xmlSizeL : List XmlElem → Nat
  | [] => 0
  | x :: xs => xmlSize x + xmlSizeL xs
end

mutual
/-- Size of a feature node (for strong induction). -/
def featureNodeSize : FeatureNode → Nat
  | .mk _ _ _ _ cs => 1 + featureForestSize cs
/-- Size of a feature forest. -/
def featureForestSize : List FeatureNode → Nat
  | [] => 0
  | n :: ns => featureNodeSize n + featureForestSize ns
end

mutual
/-- The spec's description of a node's children: uniformly states or
    uniformly non-states, recursively at every level. -/
def featureNodeHomog : FeatureNode → Bool
  | .mk _ _ _ _ cs =>
    (cs.all (fun c => c.isState) || cs.all (fun c => !c.isState))
      && featureForestHomog cs
/-- Homogeneity of a whole feature forest. -/
def featureForestHomog : List FeatureNode → Bool
  | [] => true
  | n :: ns => featureNodeHomog n && featureForestHomog ns
end

mutual
/-- `countScorableFeatures` exactly as the spec words it (for comparison
    with the source's `countAvailableFeatures`): numeric feature nodes and
    categorical feature nodes — recognized because their children are
    states — count 1 each, without recursing into state children; pure
    grouping nodes — whose children are non-state features — are recursed
    into without being counted. -/
def countScorableFeatures : List FeatureNode → Nat
  | [] => 0
  | n :: rest => countScorableNode n + countScorableFeatures rest
/-- Contribution of a single node under the spec's wording. -/
def countScorableNode : FeatureNode → Nat
  | .mk _ _ t _ cs =>
    if t == some "numeric" then 1
    else if !cs.isEmpty && cs.all (fun c => c.isState) then 1
    else if !cs.isEmpty && cs.all (fun c => !c.isState) then
      countScorableFeatures cs
    else 0
end

/-- Invariant of the indirect-match loop: `remaining` is exactly the direct
    set extended by the indirect set, and every indirect id is drawn from
    `S` (the tree-node ids) and lies outside the direct set. -/
def indirectInv (direct S : Finset String) (st : IndirectState) : Prop :=
  st.remaining = direct ∪ st.indirect ∧
    ∀ x ∈ st.indirect, x ∈ S ∧ x ∉ direct

/-! ## Concrete instances used by witnesses and counterexamples -/

/-- A 3-level group chain G1 → G2 → G3 → E with one state feature F which
    only the leaf E is scored for (code "1"). -/
def kdChain : KeyData := { emptyKeyData with
  allEntities := [("G1", ⟨"G1", "Group 1"⟩), ("G2", ⟨"G2", "Group 2"⟩),
    ("G3", ⟨"G3", "Group 3"⟩), ("E", ⟨"E", "Leaf"⟩)],
  allFeatures := [("F", ⟨"F", "Feat", some "state", true, none, none, none⟩)],
  entityScores := [("G1", []), ("G2", []), ("G3", []),
    ("E", [("F", .state "1")])],
  entityTree := [.mk "G1" "Group 1"
    [.mk "G2" "Group 2" [.mk "G3" "Group 3" [.mk "E" "Leaf" [] false] true]
      true] true] }

/-- Choosing feature F (a state selection stores JS `true`). -/
def chosenChain : List (String × ChosenFeature) := [("F", ⟨some "true"⟩)]

/-- Two entities, one state feature; E1 scored "1", E2 scored "0",
    E3 scored "3" (uncertain). -/
def kdStates : KeyData := { emptyKeyData with
  allEntities := [("E1", ⟨"E1", "E1"⟩), ("E2", ⟨"E2", "E2"⟩),
    ("E3", ⟨"E3", "E3"⟩)],
  allFeatures := [("F1", ⟨"F1", "F1", some "state", true, none, none, none⟩)],
  entityScores := [("E1", [("F1", .state "1")]), ("E2", [("F1", .state "0")]),
    ("E3", [("F1", .state "3")])] }

/-- One entity with a numeric feature scored to the range [2, 5]. -/
def kdNumeric : KeyData := { emptyKeyData with
  allEntities := [("E", ⟨"E", "E"⟩)],
  allFeatures := [("N", ⟨"N", "Len", some "numeric", false, none, none, none⟩)],
  entityScores := [("E", [("N", .numeric (some 2) (some 5))])] }

/-- A flat model with one group over one leaf, for the partition witness. -/
def kdPart : KeyData := { emptyKeyData with
  allEntities := [("G", ⟨"G", "G"⟩), ("A", ⟨"A", "A"⟩), ("B", ⟨"B", "B"⟩)],
  allFeatures := [("F", ⟨"F", "F", some "state", true, none, none, none⟩)],
  entityScores := [("G", []), ("A", [("F", .state "1")]),
    ("B", [("F", .state "0")])],
  entityTree := [.mk "G" "G" [.mk "A" "A" [] false, .mk "B" "B" [] false] true] }

/-- XML for one entity node referencing a cataloged id. -/
def xmlEnt : XmlElem :=
  .mk "node" [] [.mk "entity_item" [("item_id", "E1"), ("item_name", "e")] []]

/-- Catalog containing the id referenced by `xmlEnt`. -/
def catEnt : List (String × Entity) := [("E1", ⟨"E1", "e"⟩)]

/-- XML for one feature node referencing a cataloged id. -/
def xmlFeat : XmlElem :=
  .mk "node" [] [.mk "feature_item" [("item_id", "F1"), ("item_name", "f")] []]

/-- Catalog containing the id referenced by `xmlFeat`. -/
def catFeat : List (String × Feature) :=
  [("F1", ⟨"F1", "f", some "numeric", false, none, none, none⟩)]

/-- A homogeneous feature forest: a grouping node holding one categorical
    feature (two state children) and one numeric feature. -/
def treeHomog : List FeatureNode :=
  [.mk "G" "Group" none false
    [.mk "C" "Cat" (some "state_group") false
      [.mk "S1" "S1" (some "state") true [],
       .mk "S2" "S2" (some "state") true []],
     .mk "N" "Num" (some "numeric") false []]]

/-- A minimal key document: no entities, features, trees or media. -/
def docMinimal : XmlElem := .mk "key_documents" [] []

/-- Archive with a `Data/` directory and a `.data` nested archive holding
    `key.data`, but no `.sco` nested archive at all. -/
def zipNoSco : List ZipEntry :=
  [.mk "Key1/Data/" true .binary,
   .mk "Key1/Data/k.data" false
     (.zipped [.mk "key.data" false (.xml docMinimal)])]

/-- Key document with one entity and one media item whose binary file is
    absent from the archive. -/
def docMedia : XmlElem := .mk "key_documents" []
  [.mk "entity_item" [("item_id", "E1"), ("item_name", "e")] [],
   .mk "media_item" [("media_path", "img.jpg")]
     [.mk "media_details" [("item_id", "E1")] []]]

/-- Like `zipNoSco` but whose key document references a missing media file. -/
def zipMediaMiss : List ZipEntry :=
  [.mk "Key1/Data/" true .binary,
   .mk "Key1/Data/k.data" false
     (.zipped [.mk "key.data" false (.xml docMedia)])]

/-! ## Theorems -/

/-- C5: with an empty constraint set, `computeMatches` returns every entity
    id (leaf and group alike — the whole catalog) as a direct match, and
    empty indirect and discarded sets. -/
theorem computeMatches_empty_constraints (kd : KeyData) :
    computeMatches kd [] =
      { direct := entityIdSet kd, indirect := ∅, discarded := ∅,
        directlyDiscarded := ∅ } := rfl

/-- C2: for a chosen state constraint, the match engine counts a mismatch
    iff the entity has no stored score for that feature id or the stored
    state score code equals "0"; every other code (including "3" uncertain
    and the misinterpretation codes "4"/"5") counts as a match. -/
theorem state_constraint_mismatch_iff (kd : KeyData) (e fid : String)
    (f : Feature) (c : ChosenFeature)
    (_hf : kd.allFeatures.lookup fid = some f) (ht : f.type = some "state") :
    (isMismatch f c (lookupScore kd e fid) = true ↔
      lookupScore kd e fid = none ∨
        lookupScore kd e fid = some (Score.state "0")) := by
  cases hs : lookupScore kd e fid with
  | none => simp [isMismatch]
  | some sc =>
    cases sc with
    | state v =>
      by_cases hv : v = "0"
      · subst hv; simp [isMismatch, scoreStateValue, ht]
      · simp [isMismatch, scoreStateValue, ht, hv]
    | numeric mn mx => simp [isMismatch, scoreStateValue, ht]

/-- Witness for the state-constraint characterization: entity E2 of
    `kdStates` is scored "0" for F1, hence mismatched. -/
theorem state_constraint_mismatch_iff_witness :
    kdStates.allFeatures.lookup "F1" =
      some ⟨"F1", "F1", some "state", true, none, none, none⟩ ∧
    (⟨"F1", "F1", some "state", true, none, none, none⟩ : Feature).type =
      some "state" ∧
    (isMismatch ⟨"F1", "F1", some "state", true, none, none, none⟩
        ⟨some "true"⟩ (lookupScore kdStates "E2" "F1") = true ↔
      lookupScore kdStates "E2" "F1" = none ∨
        lookupScore kdStates "E2" "F1" = some (Score.state "0")) :=
  ⟨rfl, rfl,
    state_constraint_mismatch_iff kdStates "E2" "F1" _ ⟨some "true"⟩ rfl rfl⟩

/-- C3: for a chosen numeric constraint whose stored score is a (non-NaN)
    range, the match engine counts a mismatch iff the entity has no stored
    score for that feature id, or the user value does not parse as a
    number, or the parsed value lies outside the closed interval
    [min, max]. -/
theorem numeric_constraint_mismatch_iff (kd : KeyData) (e fid : String)
    (f : Feature) (c : ChosenFeature) (mn mx : ℚ)
    (_hf : kd.allFeatures.lookup fid = some f) (ht : f.type = some "numeric")
    (hs : lookupScore kd e fid = none ∨
      lookupScore kd e fid = some (Score.numeric (some mn) (some mx))) :
    (isMismatch f c (lookupScore kd e fid) = true ↔
      lookupScore kd e fid = none ∨ choiceNum c = none ∨
        ∃ q, choiceNum c = some q ∧ (q < mn ∨ mx < q)) := by
  rcases hs with hs | hs <;> rw [hs]
  · simp [isMismatch]
  · cases hq : choiceNum c with
    | none => simp [isMismatch, ht, hq, scoreMin, scoreMax, jsLt, jsGt]
    | some q => simp [isMismatch, ht, hq, scoreMin, scoreMax, jsLt, jsGt]

/-- Witness for the numeric-constraint characterization: `kdNumeric`'s
    entity E has range [2, 5] for N; the value "6" is a mismatch. -/
theorem numeric_constraint_mismatch_iff_witness :
    kdNumeric.allFeatures.lookup "N" =
      some ⟨"N", "Len", some "numeric", false, none, none, none⟩ ∧
    (⟨"N", "Len", some "numeric", false, none, none, none⟩ : Feature).type =
      some "numeric" ∧
    (lookupScore kdNumeric "E" "N" = none ∨
      lookupScore kdNumeric "E" "N" =
        some (Score.numeric (some 2) (some 5))) ∧
    (isMismatch ⟨"N", "Len", some "numeric", false, none, none, none⟩
        ⟨some "6"⟩ (lookupScore kdNumeric "E" "N") = true ↔
      lookupScore kdNumeric "E" "N" = none ∨ choiceNum ⟨some "6"⟩ = none ∨
        ∃ q, choiceNum ⟨some "6"⟩ = some q ∧ (q < 2 ∨ 5 < q)) :=
  ⟨rfl, rfl, Or.inr rfl,
    numeric_constraint_mismatch_iff kdNumeric "E" "N" _ ⟨some "6"⟩ 2 5 rfl rfl
      (Or.inr rfl)⟩

/-- C10: a chosen constraint whose feature id is absent from `allFeatures`
    is skipped: per entity it contributes no mismatch, and the
    directly-discarded set is unchanged when all such constraints are
    removed. -/
theorem unknown_constraints_never_discard (kd : KeyData)
    (chosen : List (String × ChosenFeature)) :
    (∀ e, entityMismatch kd chosen e =
      entityMismatch kd
        (chosen.filter (fun p => (kd.allFeatures.lookup p.1).isSome)) e) ∧
    directlyDiscardedSet kd chosen =
      directlyDiscardedSet kd
        (chosen.filter (fun p => (kd.allFeatures.lookup p.1).isSome)) := by
  have hpt : ∀ e, entityMismatch kd chosen e =
      entityMismatch kd
        (chosen.filter (fun p => (kd.allFeatures.lookup p.1).isSome)) e := by
    intro e
    induction chosen with
    | nil => rfl
    | cons p rest ih =>
      cases hf : kd.allFeatures.lookup p.1 with
      | none =>
        simpa [entityMismatch, List.any_cons, List.filter_cons, hf] using ih
      | some f =>
        simp only [entityMismatch, List.any_cons, List.filter_cons, hf,
          Option.isSome_some, if_pos]
        unfold entityMismatch at ih
        rw [ih]
  refine ⟨hpt, ?_⟩
  unfold directlyDiscardedSet
  ext x
  simp [hpt x]

/-- C1 (code bug): the source's indirect pass iterates only the top-level
    `entityTree` array and never recurses into `node.children`, so in the
    3-level chain G1 → G2 → G3 → E where only E survives direct filtering,
    the indirect set comes out empty and all three ancestor groups are
    discarded — the fixpoint the spec (and the surrounding comments)
    describe would give indirect = {G1, G2, G3}. -/
theorem indirect_chain_not_propagated :
    (computeMatches kdChain chosenChain).indirect = ∅ ∧
    (computeMatches kdChain chosenChain).direct = {"E"} ∧
    (computeMatches kdChain chosenChain).discarded = {"G1", "G2", "G3"} :=
  ⟨by decide, by decide, by decide⟩

/-- C8: an archive with no directory entry whose normalized path ends in
    `data/` makes the load fail with the `StructureError` message; the
    `Except.error` result carries no model. -/
theorem missing_data_dir_structure_error (fileName : String)
    (entries : List ZipEntry)
    (h : ∀ e ∈ entries, ¬(e.isDir = true ∧
        "data/".toList.isSuffixOf (normPath e.name) = true)) :
    processKeyFromZip fileName (.zipBlob entries) =
      .error (.structureError
        "Invalid Lucid key zip: \"Data\" directory not found.") := by
  have hfind : entries.find? (fun e =>
      e.isDir && "data/".toList.isSuffixOf (normPath e.name)) = none := by
    rw [List.find?_eq_none]
    intro e he hc
    rw [Bool.and_eq_true] at hc
    exact h e he ⟨hc.1, hc.2⟩
  simp only [processKeyFromZip]
  rw [hfind]

/-- Witness: the empty archive has no `data/` directory and fails. -/
theorem missing_data_dir_structure_error_witness :
    (∀ e ∈ ([] : List ZipEntry), ¬(e.isDir = true ∧
        "data/".toList.isSuffixOf (normPath e.name) = true)) ∧
    processKeyFromZip "k.zip" (.zipBlob []) =
      .error (.structureError
        "Invalid Lucid key zip: \"Data\" directory not found.") :=
  ⟨by simp, missing_data_dir_structure_error "k.zip" [] (by simp)⟩

/-- The id of a forest member occurs among the forest's ids. -/
theorem mem_entityForestIds_of_mem {n : EntityNode} {l : List EntityNode}
    (h : n ∈ l) : n.id ∈ entityForestIds l := by
  induction l with
  | nil => cases h
  | cons m ms ih =>
    rcases List.mem_cons.1 h with rfl | h'
    · rw [entityForestIds]
      apply List.mem_append_left
      cases n
      simp [entityNodeIds, EntityNode.id]
    · rw [entityForestIds]
      exact List.mem_append_right _ (ih h')

/-- `indirectStep` preserves the loop invariant. -/
theorem indirectStep_inv {direct S : Finset String} {st : IndirectState}
    {nodes : List EntityNode} {n : EntityNode} (hn : n ∈ nodes)
    (hS : ∀ id ∈ entityForestIds nodes, id ∈ S)
    (h : indirectInv direct S st) :
    indirectInv direct S (indirectStep st n) := by
  obtain ⟨hrem, hind⟩ := h
  unfold indirectStep
  split
  · next hcond =>
    simp only [Bool.and_eq_true, Bool.not_eq_true', decide_eq_false_iff_not]
      at hcond
    obtain ⟨⟨hg, hnot⟩, hchild⟩ := hcond
    constructor
    · show insert n.id st.remaining = direct ∪ insert n.id st.indirect
      rw [hrem, Finset.union_insert]
    · intro x hx
      rcases Finset.mem_insert.1 hx with rfl | hx'
      · refine ⟨hS _ (mem_entityForestIds_of_mem hn), fun hxd => ?_⟩
        exact hnot (hrem ▸ Finset.mem_union_left _ hxd)
      · exact hind x hx'
  · exact ⟨hrem, hind⟩

/-- A fold of `indirectStep` over tree nodes preserves the invariant. -/
theorem indirectFold_inv {direct S : Finset String}
    {nodes : List EntityNode}
    (hS : ∀ id ∈ entityForestIds nodes, id ∈ S) :
    ∀ (l : List EntityNode), (∀ m ∈ l, m ∈ nodes) →
      ∀ st, indirectInv direct S st →
        indirectInv direct S (l.foldl indirectStep st) := by
  intro l
  induction l with
  | nil => intro _ st h; exact h
  | cons m ms ih =>
    intro hsub st h
    rw [List.foldl_cons]
    exact ih (fun x hx => hsub x (List.mem_cons_of_mem m hx)) _
      (indirectStep_inv (hsub m (List.mem_cons_self m ms)) hS h)

/-- One pass preserves the invariant (the `changed` flag is immaterial). -/
theorem indirectPass_inv {direct S : Finset String}
    {nodes : List EntityNode}
    (hS : ∀ id ∈ entityForestIds nodes, id ∈ S)
    {st : IndirectState} (h : indirectInv direct S st) :
    indirectInv direct S (indirectPass nodes st) :=
  indirectFold_inv hS nodes (fun _ hm => hm) _ ⟨h.1, h.2⟩

/-- The whole loop preserves the invariant, for any fuel. -/
theorem indirectLoop_inv (direct S : Finset String)
    (nodes : List EntityNode)
    (hS : ∀ id ∈ entityForestIds nodes, id ∈ S) :
    ∀ (fuel : Nat) (st : IndirectState), indirectInv direct S st →
      indirectInv direct S (indirectLoop nodes fuel st) := by
  intro fuel
  induction fuel with
  | zero => intro st h; exact h
  | succ k ih =>
    intro st h
    rw [indirectLoop]
    split
    · exact ih _ (indirectPass_inv hS h)
    · exact indirectPass_inv hS h

/-- Set-level partition consequence of the loop invariant. -/
theorem partition_of_inv (allIds dd ind rem direct : Finset String)
    (hdir : direct = allIds.filter (fun id => id ∉ dd))
    (hrem : rem = direct ∪ ind)
    (hind : ∀ x ∈ ind, x ∈ allIds ∧ x ∉ direct) :
    direct ∩ ind = ∅ ∧
    direct ∩ allIds.filter (fun id => id ∉ rem) = ∅ ∧
    ind ∩ allIds.filter (fun id => id ∉ rem) = ∅ ∧
    direct ∪ ind ∪ allIds.filter (fun id => id ∉ rem) = allIds := by
  refine ⟨?_, ?_, ?_, ?_⟩
  · ext x
    simp only [Finset.mem_inter, Finset.not_mem_empty, iff_false, not_and]
    intro hxd hxi
    exact (hind x hxi).2 hxd
  · ext x
    simp only [Finset.mem_inter, Finset.mem_filter, Finset.not_mem_empty,
      iff_false, not_and, and_imp]
    intro hxd _ hxr
    exact hxr (hrem ▸ Finset.mem_union_left _ hxd)
  · ext x
    simp only [Finset.mem_inter, Finset.mem_filter, Finset.not_mem_empty,
      iff_false, not_and, and_imp]
    intro hxi _ hxr
    exact hxr (hrem ▸ Finset.mem_union_right _ hxi)
  · ext x
    simp only [Finset.mem_union, Finset.mem_filter]
    constructor
    · rintro ((hx | hx) | hx)
      · exact (Finset.mem_filter.1 (hdir ▸ hx)).1
      · exact (hind x hx).1
      · exact hx.1
    · intro hx
      by_cases hxr : x ∈ rem
      · rcases Finset.mem_union.1 (hrem ▸ hxr) with hx' | hx'
        · exact Or.inl (Or.inl hx')
        · exact Or.inl (Or.inr hx')
      · exact Or.inr ⟨hx, hxr⟩

/-- C9: whenever every entity-tree node id appears in the entity catalog
    (which the tree builder guarantees), the three sets returned by
    `computeMatches` are pairwise disjoint and their union is exactly the
    set of all entity ids. -/
theorem computeMatches_partition (kd : KeyData)
    (chosen : List (String × ChosenFeature))
    (h : ∀ id ∈ entityForestIds kd.entityTree, id ∈ entityIdSet kd) :
    (computeMatches kd chosen).direct ∩ (computeMatches kd chosen).indirect
        = ∅ ∧
    (computeMatches kd chosen).direct ∩ (computeMatches kd chosen).discarded
        = ∅ ∧
    (computeMatches kd chosen).indirect ∩ (computeMatches kd chosen).discarded
        = ∅ ∧
    (computeMatches kd chosen).direct ∪ (computeMatches kd chosen).indirect
        ∪ (computeMatches kd chosen).discarded = entityIdSet kd := by
  cases chosen with
  | nil => refine ⟨?_, ?_, ?_, ?_⟩ <;> simp [computeMatches]
  | cons p rest =>
    have hS : ∀ id ∈ entityForestIds kd.entityTree,
        id ∈ (entityForestIds kd.entityTree).toFinset := fun id hid =>
      List.mem_toFinset.2 hid
    have hinv := indirectLoop_inv
      ((entityIdSet kd).filter
        (fun id => id ∉ directlyDiscardedSet kd (p :: rest)))
      ((entityForestIds kd.entityTree).toFinset)
      kd.entityTree hS (kd.entityTree.length + 1)
      { indirect := ∅,
        remaining := (entityIdSet kd).filter
          (fun id => id ∉ directlyDiscardedSet kd (p :: rest)),
        changed := false }
      ⟨(Finset.union_empty _).symm, by simp⟩
    obtain ⟨hrem, hind⟩ := hinv
    exact partition_of_inv (entityIdSet kd)
      (directlyDiscardedSet kd (p :: rest)) _ _ _ rfl hrem
      (fun x hx => ⟨h x (List.mem_toFinset.1 (hind x hx).1), (hind x hx).2⟩)

/-- Witness for the partition property on a concrete grouped model. -/
theorem computeMatches_partition_witness :
    (∀ id ∈ entityForestIds kdPart.entityTree, id ∈ entityIdSet kdPart) ∧
    ((computeMatches kdPart [("F", ⟨some "true"⟩)]).direct ∩
        (computeMatches kdPart [("F", ⟨some "true"⟩)]).indirect = ∅ ∧
      (computeMatches kdPart [("F", ⟨some "true"⟩)]).direct ∩
        (computeMatches kdPart [("F", ⟨some "true"⟩)]).discarded = ∅ ∧
      (computeMatches kdPart [("F", ⟨some "true"⟩)]).indirect ∩
        (computeMatches kdPart [("F", ⟨some "true"⟩)]).discarded = ∅ ∧
      (computeMatches kdPart [("F", ⟨some "true"⟩)]).direct ∪
        (computeMatches kdPart [("F", ⟨some "true"⟩)]).indirect ∪
        (computeMatches kdPart [("F", ⟨some "true"⟩)]).discarded =
          entityIdSet kdPart) :=
  ⟨by decide, computeMatches_partition kdPart [("F", ⟨some "true"⟩)] (by decide)⟩

/-- Feature nodes have positive size. -/
theorem featureNodeSize_pos (n : FeatureNode) : 0 < featureNodeSize n := by
  cases n with
  | mk i nm t s cs =>
    rw [featureNodeSize]
    omega

/-- Size-bounded form of the count equivalence: on forests whose nodes all
    have homogeneous children, the source count agrees with the spec
    count. -/
theorem countAvail_eq_spec :
    ∀ (k : Nat) (ns : List FeatureNode), featureForestSize ns ≤ k →
      featureForestHomog ns = true →
      countAvailableFeatures ns = countScorableFeatures ns := by
  intro k
  induction k with
  | zero =>
    intro ns hsz hh
    cases ns with
    | nil => simp [countAvailableFeatures, countScorableFeatures]
    | cons n rest =>
      exfalso
      have h1 := featureNodeSize_pos n
      rw [featureForestSize] at hsz
      omega
  | succ k ih =>
    intro ns hsz hh
    cases ns with
    | nil => simp [countAvailableFeatures, countScorableFeatures]
    | cons n rest =>
      cases n with
      | mk i nm t s cs =>
        simp only [featureForestHomog, featureNodeHomog, Bool.and_eq_true,
          Bool.or_eq_true] at hh
        obtain ⟨⟨hall, hcs⟩, hrest⟩ := hh
        rw [featureForestSize, featureNodeSize] at hsz
        have hszrest : featureForestSize rest ≤ k := by omega
        have hszcs : featureForestSize cs ≤ k := by omega
        simp only [countAvailableFeatures, countScorableFeatures]
        rw [ih rest hszrest hrest]
        congr 1
        cases cs with
        | nil =>
          simp only [countAvailableNode, countScorableNode]
          simp [List.isEmpty]
        | cons hd tl =>
          simp only [countAvailableNode, countScorableNode]
          cases hhd : hd.isState with
          | true =>
            have hallstate : (hd :: tl).all (fun c => c.isState) = true := by
              rcases hall with hall | hall
              · exact hall
              · exfalso
                have hmem := (List.all_eq_true.1 hall) hd
                  (List.mem_cons_self _ _)
                simp [hhd] at hmem
            simp [hhd, hallstate]
          | false =>
            have hallnon : (hd :: tl).all (fun c => !c.isState) = true := by
              rcases hall with hall | hall
              · exfalso
                have hmem := (List.all_eq_true.1 hall) hd
                  (List.mem_cons_self _ _)
                simp [hhd] at hmem
              · exact hall
            have hstatefalse : (hd :: tl).all (fun c => c.isState) = false := by
              rw [List.all_cons]
              simp [hhd]
            rw [ih (hd :: tl) hszcs hcs]
            simp [hhd, hstatefalse, hallnon]

/-- C7: under the spec's reading of the tree — each node's children are
    uniformly states or uniformly non-state features — the source's
    `countAvailableFeatures` computes exactly the spec's
    `countScorableFeatures`: numeric and categorical (state-children)
    nodes count one each, state children are never counted or recursed
    into, and pure grouping nodes are recursed into without being
    counted. -/
theorem countAvailableFeatures_matches_spec (ns : List FeatureNode)
    (hh : featureForestHomog ns = true) :
    countAvailableFeatures ns = countScorableFeatures ns :=
  countAvail_eq_spec (featureForestSize ns) ns le_rfl hh

/-- Witness: on the homogeneous forest `treeHomog` (a grouping node over a
    categorical feature with two states plus a numeric feature) both
    counts evaluate to 2. -/
theorem countAvailableFeatures_matches_spec_witness :
    featureForestHomog treeHomog = true ∧
    countAvailableFeatures treeHomog = countScorableFeatures treeHomog :=
  ⟨by decide, countAvailableFeatures_matches_spec treeHomog (by decide)⟩

/-- XML elements have positive size. -/
theorem xmlSize_pos (x : XmlElem) : 0 < xmlSize x := by
  cases x with
  | mk t a cs =>
    rw [xmlSize]
    omega

/-- A member of a forest is bounded by the forest's size. -/
theorem xmlSize_le_of_mem {x : XmlElem} {l : List XmlElem} (h : x ∈ l) :
    xmlSize x ≤ xmlSizeL l := by
  induction l with
  | nil => cases h
  | cons y ys ih =>
    rcases List.mem_cons.1 h with rfl | h'
    · rw [xmlSizeL]; omega
    · rw [xmlSizeL]; have := ih h'; omega

/-- Provenance of the nodes of `buildEntityForest`. -/
theorem mem_buildEntityForest {ae : List (String × Entity)}
    {xs : List XmlElem} {t : EntityNode} :
    t ∈ buildEntityForest ae xs ↔ ∃ x ∈ xs, buildEntityNode ae x = some t := by
  induction xs with
  | nil => simp [buildEntityForest]
  | cons y ys ih =>
    simp only [buildEntityForest]
    cases hy : buildEntityNode ae y with
    | some n =>
      constructor
      · intro h'
        rcases List.mem_cons.1 h' with rfl | h''
        · exact ⟨y, List.mem_cons_self _ _, hy⟩
        · obtain ⟨x, hx, hbx⟩ := ih.1 h''
          exact ⟨x, List.mem_cons_of_mem _ hx, hbx⟩
      · rintro ⟨x, hx, hbx⟩
        rcases List.mem_cons.1 hx with rfl | hx'
        · rw [hy] at hbx
          cases Option.some.inj hbx
          exact List.mem_cons_self _ _
        · exact List.mem_cons_of_mem _ (ih.2 ⟨x, hx', hbx⟩)
    | none =>
      constructor
      · intro h'
        obtain ⟨x, hx, hbx⟩ := ih.1 h'
        exact ⟨x, List.mem_cons_of_mem _ hx, hbx⟩
      · rintro ⟨x, hx, hbx⟩
        rcases List.mem_cons.1 hx with rfl | hx'
        · rw [hy] at hbx; cases hbx
        · exact ih.2 ⟨x, hx', hbx⟩

/-- Provenance of the nodes of `buildEntityChildren`: each comes from a
    grandchild through some direct child container. -/
theorem mem_buildEntityChildren {ae : List (String × Entity)}
    {cs : List XmlElem} {t : EntityNode}
    (h : t ∈ buildEntityChildren ae cs) :
    ∃ c ∈ cs, ∃ y ∈ c.children, buildEntityNode ae y = some t := by
  induction cs with
  | nil => rw [buildEntityChildren] at h; cases h
  | cons c rest ih =>
    cases c with
    | mk tg a cc =>
      rw [buildEntityChildren] at h
      by_cases htg : (tg == "nodes") = true
      · rw [if_pos htg] at h
        obtain ⟨y, hy, hby⟩ := mem_buildEntityForest.1 h
        exact ⟨.mk tg a cc, List.mem_cons_self _ _, y,
          by simpa [XmlElem.children] using hy, hby⟩
      · rw [if_neg htg] at h
        obtain ⟨c', hc', hrest⟩ := ih h
        exact ⟨c', List.mem_cons_of_mem _ hc', hrest⟩

/-- Membership in the collected ids of an entity forest. -/
theorem mem_entityForestIds_iff {id : String} {l : List EntityNode} :
    id ∈ entityForestIds l ↔ ∃ n ∈ l, id ∈ entityNodeIds n := by
  induction l with
  | nil => simp [entityForestIds]
  | cons n ns ih =>
    rw [entityForestIds]
    rw [List.mem_append]
    constructor
    · rintro (h | h)
      · exact ⟨n, List.mem_cons_self _ _, h⟩
      · obtain ⟨m, hm, hid⟩ := ih.1 h
        exact ⟨m, List.mem_cons_of_mem _ hm, hid⟩
    · rintro ⟨m, hm, hid⟩
      rcases List.mem_cons.1 hm with rfl | hm'
      · exact Or.inl hid
      · exact Or.inr (ih.2 ⟨m, hm', hid⟩)

/-- Size-bounded form of the entity-tree catalog invariant. -/
theorem buildEntityNode_ids_bounded (ae : List (String × Entity)) :
    ∀ (k : Nat) (x : XmlElem), xmlSize x ≤ k →
      ∀ t, buildEntityNode ae x = some t →
        ∀ id ∈ entityNodeIds t, (ae.lookup id).isSome := by
  intro k
  induction k with
  | zero =>
    intro x hsz
    exact absurd hsz (by have := xmlSize_pos x; omega)
  | succ k ih =>
    intro x hsz t hbuild id hid
    cases x with
    | mk tg attrs cs =>
      rw [buildEntityNode] at hbuild
      cases hitem : cs.find? (fun ch => ch.tag == "entity_item") with
      | none =>
        simp only [hitem] at hbuild
        exact Option.noConfusion hbuild
      | some item =>
        simp only [hitem] at hbuild
        cases hid0 : attrNonEmpty item "item_id" with
        | none =>
          simp only [hid0] at hbuild
          exact Option.noConfusion hbuild
        | some id0 =>
          simp only [hid0] at hbuild
          cases hlook : ae.lookup id0 with
          | none =>
            simp only [hlook] at hbuild
            exact Option.noConfusion hbuild
          | some ent =>
            simp only [hlook] at hbuild
            have ht : EntityNode.mk id0 ent.name
                (buildEntityChildren ae cs)
                ((buildEntityChildren ae cs).length != 0) = t :=
              Option.some.inj hbuild
            subst ht
            rw [entityNodeIds] at hid
            rcases List.mem_cons.1 hid with rfl | hid'
            · rw [hlook]; rfl
            · obtain ⟨t', ht', hidt'⟩ := mem_entityForestIds_iff.1 hid'
              obtain ⟨c, hc, y, hy, hby⟩ := mem_buildEntityChildren ht'
              have hsy : xmlSize y ≤ k := by
                have h1 : xmlSize y ≤ xmlSizeL c.children :=
                  xmlSize_le_of_mem hy
                have h2 : xmlSizeL c.children < xmlSize c := by
                  cases c with
                  | mk tc ac cc =>
                    rw [xmlSize, XmlElem.children]
                    omega
                have h3 : xmlSize c ≤ xmlSizeL cs := xmlSize_le_of_mem hc
                rw [xmlSize] at hsz
                omega
              exact ih y hsy t' hby id hidt'

/-- Missing catalog id drops the entity node (and its whole subtree). -/
theorem buildEntityNode_dropped (ae : List (String × Entity))
    (x item : XmlElem) (id : String)
    (hitem : x.children.find? (fun ch => ch.tag == "entity_item") = some item)
    (hid : attrNonEmpty item "item_id" = some id)
    (hlook : ae.lookup id = none) :
    buildEntityNode ae x = none := by
  cases x with
  | mk tg attrs cs =>
    rw [XmlElem.children] at hitem
    rw [buildEntityNode]
    simp [hitem, hid, hlook]

/-- Provenance of the nodes of `buildFeatureForest`. -/
theorem mem_buildFeatureForest {af : List (String × Feature)}
    {xs : List XmlElem} {t : FeatureNode} :
    t ∈ buildFeatureForest af xs ↔
      ∃ x ∈ xs, buildFeatureNode af x = some t := by
  induction xs with
  | nil => simp [buildFeatureForest]
  | cons y ys ih =>
    simp only [buildFeatureForest]
    cases hy : buildFeatureNode af y with
    | some n =>
      constructor
      · intro h'
        rcases List.mem_cons.1 h' with rfl | h''
        · exact ⟨y, List.mem_cons_self _ _, hy⟩
        · obtain ⟨x, hx, hbx⟩ := ih.1 h''
          exact ⟨x, List.mem_cons_of_mem _ hx, hbx⟩
      · rintro ⟨x, hx, hbx⟩
        rcases List.mem_cons.1 hx with rfl | hx'
        · rw [hy] at hbx
          cases Option.some.inj hbx
          exact List.mem_cons_self _ _
        · exact List.mem_cons_of_mem _ (ih.2 ⟨x, hx', hbx⟩)
    | none =>
      constructor
      · intro h'
        obtain ⟨x, hx, hbx⟩ := ih.1 h'
        exact ⟨x, List.mem_cons_of_mem _ hx, hbx⟩
      · rintro ⟨x, hx, hbx⟩
        rcases List.mem_cons.1 hx with rfl | hx'
        · rw [hy] at hbx; cases hbx
        · exact ih.2 ⟨x, hx', hbx⟩

/-- Provenance of the nodes of `buildFeatureChildren`. -/
theorem mem_buildFeatureChildren {af : List (String × Feature)}
    {cs : List XmlElem} {t : FeatureNode}
    (h : t ∈ buildFeatureChildren af cs) :
    ∃ c ∈ cs, ∃ y ∈ c.children, buildFeatureNode af y = some t := by
  induction cs with
  | nil => rw [buildFeatureChildren] at h; cases h
  | cons c rest ih =>
    cases c with
    | mk tg a cc =>
      rw [buildFeatureChildren] at h
      by_cases htg : (tg == "nodes") = true
      · rw [if_pos htg] at h
        obtain ⟨y, hy, hby⟩ := mem_buildFeatureForest.1 h
        exact ⟨.mk tg a cc, List.mem_cons_self _ _, y,
          by simpa [XmlElem.children] using hy, hby⟩
      · rw [if_neg htg] at h
        obtain ⟨c', hc', hrest⟩ := ih h
        exact ⟨c', List.mem_cons_of_mem _ hc', hrest⟩

/-- Membership in the collected ids of a feature forest. -/
theorem mem_featureForestIds_iff {id : String} {l : List FeatureNode} :
    id ∈ featureForestIds l ↔ ∃ n ∈ l, id ∈ featureNodeIds n := by
  induction l with
  | nil => simp [featureForestIds]
  | cons n ns ih =>
    rw [featureForestIds]
    rw [List.mem_append]
    constructor
    · rintro (h | h)
      · exact ⟨n, List.mem_cons_self _ _, h⟩
      · obtain ⟨m, hm, hid⟩ := ih.1 h
        exact ⟨m, List.mem_cons_of_mem _ hm, hid⟩
    · rintro ⟨m, hm, hid⟩
      rcases List.mem_cons.1 hm with rfl | hm'
      · exact Or.inl hid
      · exact Or.inr (ih.2 ⟨m, hm', hid⟩)

/-- Size-bounded form of the feature-tree catalog invariant. -/
theorem buildFeatureNode_ids_bounded (af : List (String × Feature)) :
    ∀ (k : Nat) (x : XmlElem), xmlSize x ≤ k →
      ∀ t, buildFeatureNode af x = some t →
        ∀ id ∈ featureNodeIds t, (af.lookup id).isSome := by
  intro k
  induction k with
  | zero =>
    intro x hsz
    exact absurd hsz (by have := xmlSize_pos x; omega)
  | succ k ih =>
    intro x hsz t hbuild id hid
    cases x with
    | mk tg attrs cs =>
      rw [buildFeatureNode] at hbuild
      cases hitem : cs.find? (fun ch =>
          ch.tag == "feature_item" || ch.tag == "state_item") with
      | none =>
        simp only [hitem] at hbuild
        exact Option.noConfusion hbuild
      | some item =>
        simp only [hitem] at hbuild
        cases hid0 : attrNonEmpty item "item_id" with
        | none =>
          simp only [hid0] at hbuild
          exact Option.noConfusion hbuild
        | some id0 =>
          simp only [hid0] at hbuild
          cases hlook : af.lookup id0 with
          | none =>
            simp only [hlook] at hbuild
            exact Option.noConfusion hbuild
          | some f =>
            simp only [hlook] at hbuild
            have ht : FeatureNode.mk id0 f.name f.type f.isState
                (buildFeatureChildren af cs) = t :=
              Option.some.inj hbuild
            subst ht
            rw [featureNodeIds] at hid
            rcases List.mem_cons.1 hid with rfl | hid'
            · rw [hlook]; rfl
            · obtain ⟨t', ht', hidt'⟩ := mem_featureForestIds_iff.1 hid'
              obtain ⟨c, hc, y, hy, hby⟩ := mem_buildFeatureChildren ht'
              have hsy : xmlSize y ≤ k := by
                have h1 : xmlSize y ≤ xmlSizeL c.children :=
                  xmlSize_le_of_mem hy
                have h2 : xmlSizeL c.children < xmlSize c := by
                  cases c with
                  | mk tc ac cc =>
                    rw [xmlSize, XmlElem.children]
                    omega
                have h3 : xmlSize c ≤ xmlSizeL cs := xmlSize_le_of_mem hc
                rw [xmlSize] at hsz
                omega
              exact ih y hsy t' hby id hidt'

/-- Missing catalog id drops the feature node (and its whole subtree). -/
theorem buildFeatureNode_dropped (af : List (String × Feature))
    (x item : XmlElem) (id : String)
    (hitem : x.children.find? (fun ch =>
      ch.tag == "feature_item" || ch.tag == "state_item") = some item)
    (hid : attrNonEmpty item "item_id" = some id)
    (hlook : af.lookup id = none) :
    buildFeatureNode af x = none := by
  cases x with
  | mk tg attrs cs =>
    rw [XmlElem.children] at hitem
    rw [buildFeatureNode]
    simp [hitem, hid, hlook]

/-- C6: every id appearing in a node built into `featureTree`/`entityTree`
    exists in the corresponding flat catalog, and a node whose referenced
    id is missing from the catalog is dropped (`none`), taking its entire
    subtree with it — nothing below it is re-attached. -/
theorem tree_ids_in_catalog :
    (∀ (ae : List (String × Entity)) (x : XmlElem) (t : EntityNode),
      buildEntityNode ae x = some t →
        ∀ id ∈ entityNodeIds t, (ae.lookup id).isSome) ∧
    (∀ (ae : List (String × Entity)) (x item : XmlElem) (id : String),
      x.children.find? (fun ch => ch.tag == "entity_item") = some item →
      attrNonEmpty item "item_id" = some id → ae.lookup id = none →
      buildEntityNode ae x = none) ∧
    (∀ (af : List (String × Feature)) (x : XmlElem) (t : FeatureNode),
      buildFeatureNode af x = some t →
        ∀ id ∈ featureNodeIds t, (af.lookup id).isSome) ∧
    (∀ (af : List (String × Feature)) (x item : XmlElem) (id : String),
      x.children.find? (fun ch =>
        ch.tag == "feature_item" || ch.tag == "state_item") = some item →
      attrNonEmpty item "item_id" = some id → af.lookup id = none →
      buildFeatureNode af x = none) :=
  ⟨fun ae x t hb => buildEntityNode_ids_bounded ae (xmlSize x) x le_rfl t hb,
   fun ae x item id h1 h2 h3 => buildEntityNode_dropped ae x item id h1 h2 h3,
   fun af x t hb => buildFeatureNode_ids_bounded af (xmlSize x) x le_rfl t hb,
   fun af x item id h1 h2 h3 => buildFeatureNode_dropped af x item id h1 h2 h3⟩

/-- Witness: the single-node XML documents build to single-node trees whose
    ids are in their catalogs. -/
theorem tree_ids_in_catalog_witness :
    buildEntityNode catEnt xmlEnt = some (.mk "E1" "e" [] false) ∧
    (∀ id ∈ entityNodeIds (EntityNode.mk "E1" "e" [] false),
      (catEnt.lookup id).isSome) ∧
    buildFeatureNode catFeat xmlFeat =
      some (.mk "F1" "f" (some "numeric") false []) ∧
    (∀ id ∈ featureNodeIds (FeatureNode.mk "F1" "f" (some "numeric") false []),
      (catFeat.lookup id).isSome) :=
  ⟨rfl, tree_ids_in_catalog.1 catEnt xmlEnt _ rfl, rfl,
    tree_ids_in_catalog.2.2.1 catFeat xmlFeat _ rfl⟩

/-- `jsMapSet` preserves a pointwise property of the stored values. -/
theorem jsMapSet_forall {α : Type} {P : α → Prop} {m : List (String × α)}
    (h : ∀ p ∈ m, P p.2) {k : String} {v : α} (hv : P v) :
    ∀ p ∈ jsMapSet m k v, P p.2 := by
  intro p hp
  unfold jsMapSet at hp
  by_cases hc : (m.any (fun q => q.1 == k)) = true
  · rw [if_pos hc] at hp
    obtain ⟨q, hq, hqe⟩ := List.mem_map.1 hp
    by_cases hqk : (q.1 == k) = true
    · rw [if_pos hqk] at hqe
      cases hqe
      exact hv
    · rw [if_neg hqk] at hqe
      cases hqe
      exact h _ hq
  · rw [if_neg hc] at hp
    rcases List.mem_append.1 hp with hp' | hp'
    · exact h p hp'
    · cases List.mem_singleton.1 hp'
      exact hv

/-- `registerEntity` keeps every entity's score map empty (it only ever
    installs fresh empty maps). -/
theorem registerEntity_scores_empty {kd : KeyData}
    (h : ∀ p ∈ kd.entityScores, p.2 = ([] : List (String × Score)))
    (el : XmlElem) :
    ∀ p ∈ (registerEntity kd el).entityScores, p.2 = [] := by
  unfold registerEntity
  cases hid : attrNonEmpty el "item_id" with
  | none => exact h
  | some id =>
    exact jsMapSet_forall
      (P := fun l => l = ([] : List (String × Score))) h rfl

/-- Folding `registerEntity` keeps score maps empty. -/
theorem registerEntityFold_scores_empty :
    ∀ (els : List XmlElem) (kd : KeyData),
      (∀ p ∈ kd.entityScores, p.2 = ([] : List (String × Score))) →
      ∀ p ∈ (els.foldl registerEntity kd).entityScores, p.2 = [] := by
  intro els
  induction els with
  | nil => intro kd h; exact h
  | cons el rest ih =>
    intro kd h
    rw [List.foldl_cons]
    exact ih _ (registerEntity_scores_empty h el)

/-- `registerFeature` never touches `entityScores`. -/
theorem registerFeature_entityScores (kd : KeyData) (c : ElemCtx) :
    (registerFeature kd c).entityScores = kd.entityScores := by
  simp only [registerFeature]
  repeat' split
  all_goals rfl

/-- Folding `registerFeature` never touches `entityScores`. -/
theorem registerFeatureFold_entityScores :
    ∀ (cs : List ElemCtx) (kd : KeyData),
      (cs.foldl registerFeature kd).entityScores = kd.entityScores := by
  intro cs
  induction cs with
  | nil => intro kd; rfl
  | cons c rest ih =>
    intro kd
    rw [List.foldl_cons, ih, registerFeature_entityScores]

/-- A missing `.sco` entry makes `processScores` a no-op (the source only
    logs a console warning). -/
theorem processScores_no_sco (entries : List ZipEntry)
    (dataDirPath keyName : String) (kd : KeyData)
    (h : findFileInZip entries (dataDirPath ++ keyName ++ ".sco") = none) :
    processScores entries dataDirPath keyName kd = kd := by
  unfold processScores readFromInnerZip
  simp [h]

/-- `getBlobUrlFromZip` never touches `entityScores`. -/
theorem getBlobUrl_snd_entityScores (entries : List ZipEntry)
    (rootPath filePath : String) (kd : KeyData) :
    ((getBlobUrlFromZip entries rootPath filePath kd).2).entityScores =
      kd.entityScores := by
  unfold getBlobUrlFromZip
  cases hf : findFileInZip entries (mediaFullPath rootPath filePath) with
  | some e => simp [hf]
  | none => simp [hf]

/-- `getBlobUrlFromZip` only appends to `parsingErrors`. -/
theorem getBlobUrl_snd_errors_mono (entries : List ZipEntry)
    (rootPath filePath : String) (kd : KeyData) {x : String}
    (h : x ∈ kd.parsingErrors) :
    x ∈ ((getBlobUrlFromZip entries rootPath filePath kd).2).parsingErrors := by
  unfold getBlobUrlFromZip
  cases hf : findFileInZip entries (mediaFullPath rootPath filePath) with
  | some e => simpa [hf] using h
  | none =>
    simp only [hf]
    exact List.mem_append_left _ h

/-- `processMediaItem` never touches `entityScores`. -/
theorem processMediaItem_entityScores (entries : List ZipEntry)
    (rootPath : String) (kd : KeyData) (mi : XmlElem) :
    (processMediaItem entries rootPath kd mi).entityScores =
      kd.entityScores := by
  unfold processMediaItem
  split
  · next details pathFromXml _ _ =>
    split
    · rfl
    · next itemId _ =>
      cases hf : findFileInZip entries
          (mediaFullPath rootPath ("Media/" ++ pathFromXml)) with
      | some e =>
        have hblob : getBlobUrlFromZip entries rootPath
            ("Media/" ++ pathFromXml) kd =
            (some ("blob:" ++ mediaFullPath rootPath
              ("Media/" ++ pathFromXml)), kd) := by
          unfold getBlobUrlFromZip
          simp [hf]
        simp only [hblob]
        split
        · rfl
        · split
          · rfl
          · rfl
      | none =>
        have hblob : getBlobUrlFromZip entries rootPath
            ("Media/" ++ pathFromXml) kd =
            (none, { kd with parsingErrors := kd.parsingErrors ++
              ["Media file not found in archive: " ++
                mediaFullPath rootPath ("Media/" ++ pathFromXml)] }) := by
          unfold getBlobUrlFromZip
          simp [hf]
        simp only [hblob]
  · rfl

/-- `processMediaItem` only appends to `parsingErrors`. -/
theorem processMediaItem_errors_mono (entries : List ZipEntry)
    (rootPath : String) (kd : KeyData) (mi : XmlElem) {x : String}
    (h : x ∈ kd.parsingErrors) :
    x ∈ (processMediaItem entries rootPath kd mi).parsingErrors := by
  unfold processMediaItem
  split
  · next details pathFromXml _ _ =>
    split
    · exact h
    · next itemId _ =>
      cases hf : findFileInZip entries
          (mediaFullPath rootPath ("Media/" ++ pathFromXml)) with
      | some e =>
        have hblob : getBlobUrlFromZip entries rootPath
            ("Media/" ++ pathFromXml) kd =
            (some ("blob:" ++ mediaFullPath rootPath
              ("Media/" ++ pathFromXml)), kd) := by
          unfold getBlobUrlFromZip
          simp [hf]
        simp only [hblob]
        split
        · exact h
        · split
          · exact h
          · exact h
      | none =>
        have hblob : getBlobUrlFromZip entries rootPath
            ("Media/" ++ pathFromXml) kd =
            (none, { kd with parsingErrors := kd.parsingErrors ++
              ["Media file not found in archive: " ++
                mediaFullPath rootPath ("Media/" ++ pathFromXml)] }) := by
          unfold getBlobUrlFromZip
          simp [hf]
        simp only [hblob]
        exact List.mem_append_left _ h
  · exact h

/-- A media item whose referenced file is missing appends the
    "Media file not found" message. -/
theorem processMediaItem_records_missing (entries : List ZipEntry)
    (rootPath : String) (kd : KeyData) (mi details : XmlElem)
    (pth iid : String)
    (h1 : (descElems mi).find? (fun e2 => e2.tag == "media_details") =
      some details)
    (h2 : attrNonEmpty mi "media_path" = some pth)
    (h3 : attrNonEmpty details "item_id" = some iid)
    (h4 : findFileInZip entries
      (mediaFullPath rootPath ("Media/" ++ pth)) = none) :
    ("Media file not found in archive: " ++
        mediaFullPath rootPath ("Media/" ++ pth)) ∈
      (processMediaItem entries rootPath kd mi).parsingErrors := by
  unfold processMediaItem
  simp only [h1, h2, h3]
  unfold getBlobUrlFromZip
  simp only [h4]
  exact List.mem_append_right _ (List.mem_singleton.2 rfl)

/-- The media fold never touches `entityScores`. -/
theorem processMedia_entityScores (entries : List ZipEntry)
    (rootPath : String) (doc : XmlElem) :
    ∀ (kd : KeyData),
      (processMedia entries rootPath doc kd).entityScores =
        kd.entityScores := by
  unfold processMedia
  generalize mediaItemsOf doc = items
  induction items with
  | nil => intro kd; rfl
  | cons mi rest ih =>
    intro kd
    rw [List.foldl_cons, ih, processMediaItem_entityScores]

/-- The media fold only appends to `parsingErrors`. -/
theorem processMediaFold_errors_mono (entries : List ZipEntry)
    (rootPath : String) :
    ∀ (items : List XmlElem) (kd : KeyData) (x : String),
      x ∈ kd.parsingErrors →
      x ∈ (items.foldl (processMediaItem entries rootPath) kd).parsingErrors := by
  intro items
  induction items with
  | nil => intro kd x h; exact h
  | cons mi rest ih =>
    intro kd x h
    rw [List.foldl_cons]
    exact ih _ x (processMediaItem_errors_mono entries rootPath kd mi h)

/-- Fold form: a media item in the list whose file is missing leaves its
    error message in the accumulated `parsingErrors`. -/
theorem processMediaFold_records (entries : List ZipEntry) (rootPath : String)
    (details : XmlElem) (pth iid : String) :
    ∀ (items : List XmlElem) (kd : KeyData) (mi : XmlElem), mi ∈ items →
      (descElems mi).find? (fun e2 => e2.tag == "media_details") =
        some details →
      attrNonEmpty mi "media_path" = some pth →
      attrNonEmpty details "item_id" = some iid →
      findFileInZip entries
        (mediaFullPath rootPath ("Media/" ++ pth)) = none →
      ("Media file not found in archive: " ++
          mediaFullPath rootPath ("Media/" ++ pth)) ∈
        (items.foldl (processMediaItem entries rootPath) kd).parsingErrors := by
  intro items
  induction items with
  | nil => intro kd mi hmi _ _ _ _; cases hmi
  | cons m rest ih =>
    intro kd mi hmi h1 h2 h3 h4
    rw [List.foldl_cons]
    rcases List.mem_cons.1 hmi with rfl | hmi'
    · exact processMediaFold_errors_mono entries rootPath rest _ _
        (processMediaItem_records_missing entries rootPath kd mi details
          pth iid h1 h2 h3 h4)
    · exact ih _ mi hmi' h1 h2 h3 h4

/-- Every media item of the document whose file is missing leaves its
    error message in the final `parsingErrors`. -/
theorem processMedia_records_missing (entries : List ZipEntry)
    (rootPath : String) (doc : XmlElem) (kd : KeyData)
    (mi details : XmlElem) (pth iid : String)
    (hmi : mi ∈ mediaItemsOf doc)
    (h1 : (descElems mi).find? (fun e2 => e2.tag == "media_details") =
      some details)
    (h2 : attrNonEmpty mi "media_path" = some pth)
    (h3 : attrNonEmpty details "item_id" = some iid)
    (h4 : findFileInZip entries
      (mediaFullPath rootPath ("Media/" ++ pth)) = none) :
    ("Media file not found in archive: " ++
        mediaFullPath rootPath ("Media/" ++ pth)) ∈
      (processMedia entries rootPath doc kd).parsingErrors := by
  unfold processMedia
  exact processMediaFold_records entries rootPath details pth iid
    (mediaItemsOf doc) kd mi hmi h1 h2 h3 h4

/-- C4 counterexample: an archive holding `data/` and a `.data` nested
    archive with `key.data`, but no `.sco` nested archive at all, loads
    successfully — `processKeyFromZip` raises no error, contradicting the
    claim that a missing inner `.sco` archive is a fatal `StructureError`
    like a missing `data/` directory or `key.data`. -/
theorem missing_sco_archive_loads_ok :
    (processKeyFromZip "k.zip" (.zipBlob zipNoSco)).isOk = true := by rfl

/-- C4 (amended): a missing inner `.sco` nested archive is non-fatal,
    handled exactly like a missing `normal.sco`: the load completes with
    every entity's score map left empty (a console warning is the only
    trace — nothing goes into `parsingErrors`), and processing continues
    through media resolution, where each media item whose file is missing
    is recorded into `parsingErrors`. -/
theorem missing_sco_archive_nonfatal (fileName : String)
    (entries : List ZipEntry) (dirEntry : ZipEntry) (keyDoc : XmlElem)
    (hdir : entries.find? (fun e =>
      e.isDir && "data/".toList.isSuffixOf (normPath e.name)) = some dirEntry)
    (hkey : readFromInnerZip entries
      (dirEntry.name ++ stripKeyExt fileName ++ ".data") "key.data" =
        some keyDoc)
    (hsco : findFileInZip entries
      (dirEntry.name ++ stripKeyExt fileName ++ ".sco") = none) :
    ∃ kd, processKeyFromZip fileName (.zipBlob entries) = .ok kd ∧
      (∀ p ∈ kd.entityScores, p.2 = ([] : List (String × Score))) ∧
      (∀ mi ∈ mediaItemsOf keyDoc, ∀ d pth iid,
        (descElems mi).find? (fun e2 => e2.tag == "media_details") = some d →
        attrNonEmpty mi "media_path" = some pth →
        attrNonEmpty d "item_id" = some iid →
        findFileInZip entries (mediaFullPath (computeRootPath dirEntry.name)
          ("Media/" ++ pth)) = none →
        ("Media file not found in archive: " ++
          mediaFullPath (computeRootPath dirEntry.name) ("Media/" ++ pth))
          ∈ kd.parsingErrors) := by
  simp only [processKeyFromZip]
  simp only [hdir]
  simp only [hkey]
  rw [processScores_no_sco entries dirEntry.name (stripKeyExt fileName) _ hsco]
  refine ⟨_, rfl, ?_, ?_⟩
  · intro p hp
    rw [processMedia_entityScores] at hp
    dsimp only at hp
    rw [registerFeatureFold_entityScores] at hp
    exact registerEntityFold_scores_empty _ _
      (by intro q hq; simp [emptyKeyData] at hq) p hp
  · intro mi hmi d pth iid h1 h2 h3 h4
    exact processMedia_records_missing entries (computeRootPath dirEntry.name)
      keyDoc _ mi d pth iid hmi h1 h2 h3 h4

/-- Witness for the amended C4 on `zipMediaMiss`: the hypotheses hold by
    computation and the conclusion follows by the theorem; the key
    document additionally references a missing media file. -/
theorem missing_sco_archive_nonfatal_witness :
    (zipMediaMiss.find? (fun e =>
      e.isDir && "data/".toList.isSuffixOf (normPath e.name)) =
        some (.mk "Key1/Data/" true .binary)) ∧
    (readFromInnerZip zipMediaMiss
      ((ZipEntry.mk "Key1/Data/" true .binary).name ++ stripKeyExt "k.zip"
        ++ ".data") "key.data" = some docMedia) ∧
    (findFileInZip zipMediaMiss
      ((ZipEntry.mk "Key1/Data/" true .binary).name ++ stripKeyExt "k.zip"
        ++ ".sco") = none) ∧
    (∃ kd, processKeyFromZip "k.zip" (.zipBlob zipMediaMiss) = .ok kd ∧
      (∀ p ∈ kd.entityScores, p.2 = ([] : List (String × Score))) ∧
      (∀ mi ∈ mediaItemsOf docMedia, ∀ d pth iid,
        (descElems mi).find? (fun e2 => e2.tag == "media_details") = some d →
        attrNonEmpty mi "media_path" = some pth →
        attrNonEmpty d "item_id" = some iid →
        findFileInZip zipMediaMiss
          (mediaFullPath
            (computeRootPath (ZipEntry.mk "Key1/Data/" true .binary).name)
            ("Media/" ++ pth)) = none →
        ("Media file not found in archive: " ++
          mediaFullPath
            (computeRootPath (ZipEntry.mk "Key1/Data/" true .binary).name)
            ("Media/" ++ pth)) ∈ kd.parsingErrors)) :=
  ⟨rfl, rfl, rfl,
    missing_sco_archive_nonfatal "k.zip" zipMediaMiss
      (.mk "Key1/Data/" true .binary) docMedia rfl rfl rfl⟩
